import Mathlib

/-
Verification development for the dual-buffer audio capture / downsampling /
voice-activity pipeline implemented in components/audio_hal/audio_pipeline.c.

Modelling conventions:
- C machine integers are modelled as Nat / Int.  The (int16_t) cast is the
  explicit reduction toInt16 (mod 2^16 into [-32768, 32767]); uint32_t
  subtraction is u32_sub (mod 2^32).  int32_t / int64_t intermediates never
  overflow on the value ranges that reach them and are modelled as Int.
- C float arithmetic (the energy computation of the VAD) is idealized as real
  arithmetic over the reals; sqrtf becomes Real.sqrt, log10f becomes
  Real.logb 10.
- Each ring buffer (arena pointer plus write / read size_t cursors) becomes a
  RingBuf value; the byte arena is a total function from addresses to bytes.
  The one-or-two-memcpy wrap-around split of the source is modelled at byte
  granularity: byte i of a write that starts at cursor w lands at address
  (w + i) % capacity, which is exactly what the split into a first chunk of
  capacity - w bytes followed by a second chunk at address 0 computes whenever
  w < capacity and the write fits (all call sites guarantee both).
- FreeRTOS concurrency is modelled sequentially: every modelled operation is
  the effect of the source function in the case where it acquires the mutex.
  Timestamps (xTaskGetTickCount() * portTICK_PERIOD_MS) are passed in as an
  explicit now argument.
- The legacy alias fields input_buffer / input_write_pos / input_read_pos of
  the source mirror the processed buffer verbatim and are not duplicated in
  the model.
-/

-- ============================================================================
-- Machine-integer helpers
-- ============================================================================

/-- toInt16 models the C cast (int16_t)v: reduction mod 2^16 into the interval
[-32768, 32767].  The percent sign is Int.emod, whose result is non-negative
here. -/
def toInt16 (v : Int) : Int := (v + 32768) % 65536 - 32768

/-- u32_sub models uint32_t subtraction a - b with unsigned wrap-around
mod 2^32. -/
def u32_sub (a b : Nat) : Nat :=
  ((a % 4294967296) + 4294967296 - (b % 4294967296)) % 4294967296

/-- bytesToSamples models the C reinterpretation (const int16_t *)data of a
byte buffer as little-endian signed 16-bit samples.  A trailing odd byte is
never read by any of the sample loops and is dropped. -/
def bytesToSamples : List Nat → List Int
  | b0 :: b1 :: rest => toInt16 ((b0 : Int) + 256 * (b1 : Int)) :: bytesToSamples rest
  | _ => []

/-- samplesToPairs groups a sample list into stereo (left, right) frames, the
way the index arithmetic input[i * 2] / input[i * 2 + 1] of the stereo loops
does.  A trailing unpaired sample is never read and is dropped. -/
def samplesToPairs : List Int → List (Int × Int)
  | l :: r :: rest => (l, r) :: samplesToPairs rest
  | _ => []

/-- sampleToBytes is the little-endian two-byte image of one int16_t value,
i.e. the bytes memcpy copies out of an int16_t array element. -/
def sampleToBytes (z : Int) : List Nat :=
  [(z % 65536).toNat % 256, (z % 65536).toNat / 256]

/-- samplesToBytes is the byte image of an int16_t array, as read by the
memcpy that appends rx_buf_mono to the processed ring buffer. -/
def samplesToBytes (samples : List Int) : List Nat :=
  (samples.map sampleToBytes).flatten

-- ============================================================================
-- Configuration constants (audio_pipeline.c / audio_pipeline.h)
-- ============================================================================

/-- DOWNSAMPLE_RATIO is CONFIG_MIC_SAMPLE_RATE / CONFIG_PROCESSED_SAMPLE_RATE
with the default configuration values 48000 and 16000, hence 3. -/
def DOWNSAMPLE_RATIO : Nat := 48000 / 16000

/-- USB_DOWNSAMPLE_RATIO is USB_AUDIO_SAMPLE_RATE / CONFIG_PROCESSED_SAMPLE_RATE
= 48000 / 16000 = 3. -/
def USB_DOWNSAMPLE_RATIO : Nat := 48000 / 16000

/-- RAW_BUFFER_SIZE: capacity of the raw 48kHz input ring buffer (64 KB). -/
def RAW_BUFFER_SIZE : Nat := 64 * 1024

/-- PROCESSED_BUFFER_SIZE: capacity of the 16kHz mono ring buffer (16 KB). -/
def PROCESSED_BUFFER_SIZE : Nat := 16 * 1024

/-- AUDIO_BUFFER_SIZE: capacity of the output (DAC) ring buffer, from
audio_pipeline.h. -/
def AUDIO_BUFFER_SIZE : Nat := 4096

-- ============================================================================
-- Downsampling / mono-mix filters
-- ============================================================================

/-- mono_downsample models static size_t mono_downsample(input, output,
in_samples).  The uint32_t state s_audio.downsample_counter is threaded
explicitly: the result is the final counter value paired with the list of
samples the C function stores into output[] (its return value is the length
of that list).  Per input sample the counter is incremented; when it reaches
ratio it is reset to 0 and the current sample is emitted. -/
def mono_downsample (ratio : Nat) : Nat → List Int → Nat × List Int
  | counter, [] => (counter, [])
  | counter, x :: xs =>
    if ratio ≤ counter + 1 then
      let rest := mono_downsample ratio 0 xs
      (rest.1, x :: rest.2)
    else
      mono_downsample ratio (counter + 1) xs

/-- stereo_to_mono_downsample models static size_t
stereo_to_mono_downsample(input, output, in_samples): per stereo frame the
channels are mixed as the int32_t average (left + right) / 2 with C
truncating division, the shared counter is incremented, and when it reaches
ratio the mixed value is cast to int16_t and emitted. -/
def stereo_to_mono_downsample (ratio : Nat) : Nat → List (Int × Int) → Nat × List Int
  | counter, [] => (counter, [])
  | counter, (left, right) :: xs =>
    let mono : Int := Int.tdiv (left + right) 2
    if ratio ≤ counter + 1 then
      let rest := stereo_to_mono_downsample ratio 0 xs
      (rest.1, toInt16 mono :: rest.2)
    else
      stereo_to_mono_downsample ratio (counter + 1) xs

/-- usb_stereo_to_mono_16k models static size_t usb_stereo_to_mono_16k(input,
output, stereo_frames), which has the same body as stereo_to_mono_downsample
but threads the separate static counter s_usb_downsample_counter. -/
def usb_stereo_to_mono_16k (ratio : Nat) : Nat → List (Int × Int) → Nat × List Int
  | counter, [] => (counter, [])
  | counter, (left, right) :: xs =>
    let mono : Int := Int.tdiv (left + right) 2
    if ratio ≤ counter + 1 then
      let rest := usb_stereo_to_mono_16k ratio 0 xs
      (rest.1, toInt16 mono :: rest.2)
    else
      usb_stereo_to_mono_16k ratio (counter + 1) xs

/-- chunked runs a stateful chunk processor f over a list of input chunks,
threading the carried counter from call to call and concatenating the emitted
samples, exactly the way repeated calls to process_mic_data thread
s_audio.downsample_counter across call boundaries. -/
def chunked {α β : Type} (f : Nat → List α → Nat × List β) (c : Nat)
    (chunks : List (List α)) : Nat × List β :=
  chunks.foldl (fun acc chunk => ((f acc.1 chunk).1, acc.2 ++ (f acc.1 chunk).2)) (c, [])

-- ============================================================================
-- Ring buffers
-- ============================================================================

/-- RingBuf models one ring buffer of the pipeline state: the byte arena
(xxx_buffer) with its write cursor (xxx_write_pos) and read cursor
(xxx_read_pos).  The arena is a total function from addresses to bytes; only
addresses below the capacity are ever used. -/
structure RingBuf where
  buf : Nat → Nat
  wpos : Nat
  rpos : Nat

/-- ringAvailable models the source expression
(write_pos - read_pos + SIZE) % SIZE.  The source computes it in size_t; for
cursors below the capacity the Nat form (wpos + SIZE - rpos) % SIZE never
truncates and agrees with the unsigned computation (the capacities are powers
of two dividing 2^64). -/
def ringAvailable (cap : Nat) (b : RingBuf) : Nat := (b.wpos + cap - b.rpos) % cap

/-- ringFree models the source expression
(read_pos - write_pos - 1 + SIZE) % SIZE, the writable byte count that keeps
one slot empty.  As with ringAvailable, for wpos < cap the Nat form never
truncates. -/
def ringFree (cap : Nat) (b : RingBuf) : Nat := (b.rpos + cap - b.wpos - 1) % cap

/-- writeAt stores a byte list at consecutive ring addresses starting at pos,
wrapping mod cap.  This is the byte-level meaning of the one-or-two-memcpy
split every append site performs (first chunk up to the end of the arena,
remainder at address 0). -/
def writeAt (cap : Nat) (buf : Nat → Nat) (pos : Nat) : List Nat → (Nat → Nat)
  | [] => buf
  | d :: ds => writeAt cap (fun a => if a = pos % cap then d else buf a) ((pos + 1) % cap) ds

/-- ringPush is an unconditional append: copy the bytes with wrap-around and
advance the write cursor by the byte count mod the capacity, as every append
site does once it has decided the data fits. -/
def ringPush (cap : Nat) (b : RingBuf) (data : List Nat) : RingBuf :=
  { b with buf := writeAt cap b.buf b.wpos data, wpos := (b.wpos + data.length) % cap }

/-- ringExtract reads n bytes starting at ring address pos, with wrap-around;
the byte-level meaning of the one-or-two-memcpy split on the read side. -/
def ringExtract (cap : Nat) (buf : Nat → Nat) (pos n : Nat) : List Nat :=
  (List.range n).map fun i => buf ((pos + i) % cap)

/-- ring_write is the truncating ring-buffer write shared by
audio_pipeline_write: clamp the request to the free space, copy with
wrap-around, advance the write cursor (the source skips the copy and the
cursor update when the clamped count is zero). -/
def ring_write (cap : Nat) (b : RingBuf) (data : List Nat) : Nat × RingBuf :=
  let space := ringFree cap b
  let to_write := if data.length < space then data.length else space
  if 0 < to_write then (to_write, ringPush cap b (data.take to_write))
  else (to_write, b)

/-- ring_read is the truncating ring-buffer read shared by
audio_pipeline_read and audio_pipeline_read_raw: clamp the request to the
available bytes, copy out with wrap-around, advance the read cursor (the
source skips the copy and the cursor update when the clamped count is
zero). -/
def ring_read (cap : Nat) (b : RingBuf) (len : Nat) : List Nat × RingBuf :=
  let available := ringAvailable cap b
  let to_read := if len < available then len else available
  if 0 < to_read then
    (ringExtract cap b.buf b.rpos to_read, { b with rpos := (b.rpos + to_read) % cap })
  else ([], b)

/-- ring_op is one ring-buffer operation of a caller sequence: a truncating
write of a byte list or a truncating read of a requested length. -/
inductive ring_op where
  | write (data : List Nat)
  | read (len : Nat)

/-- ring_step applies one operation to a ring buffer. -/
def ring_step (cap : Nat) (b : RingBuf) : ring_op → RingBuf
  | ring_op.write data => (ring_write cap b data).2
  | ring_op.read len => (ring_read cap b len).2

/-- ringReset is the reset ring buffer: zeroed arena, both cursors 0 (the
state after allocation and cursor reset in audio_pipeline_init). -/
def ringReset : RingBuf := { buf := fun _ => 0, wpos := 0, rpos := 0 }

/-- ring_run folds a sequence of operations over the reset ring buffer. -/
def ring_run (cap : Nat) (ops : List ring_op) : RingBuf :=
  ops.foldl (ring_step cap) ringReset

-- ============================================================================
-- Pipeline state
-- ============================================================================

/-- audio_state_t from audio_pipeline.h. -/
inductive audio_state_t where
  | uninitialized
  | idle
  | playing
  | recording
  | duplex
  | error
  deriving DecidableEq

/-- voice_activity_t from audio_pipeline.h; energy_db is a C float, idealized
as a real number. -/
structure voice_activity_t where
  is_active : Bool
  energy_db : ℝ
  duration_ms : Nat

/-- audio_pipeline_state_t: the modelled fields of the static s_audio
singleton.  Hardware handles, FreeRTOS primitives and the legacy alias fields
are not part of the model (see the header comment). -/
structure audio_pipeline_state_t where
  state : audio_state_t
  initialized : Bool
  volume : Nat
  muted : Bool
  vad : voice_activity_t
  energy_threshold : ℝ
  voice_start_time : Nat
  underruns : Nat
  overruns : Nat
  raw_overruns : Nat
  output : RingBuf
  raw : RingBuf
  processed : RingBuf
  downsample_counter : Nat

/-- audio_pipeline_init_state is s_audio after a successful
audio_pipeline_init: zero-initialized statics, then volume 70, unmuted,
energy threshold -40 dB, state Idle, downsample counter 0 and all cursors
reset. -/
noncomputable def audio_pipeline_init_state : audio_pipeline_state_t :=
  { state := audio_state_t.idle
    initialized := true
    volume := 70
    muted := false
    vad := { is_active := false, energy_db := 0, duration_ms := 0 }
    energy_threshold := -40
    voice_start_time := 0
    underruns := 0
    overruns := 0
    raw_overruns := 0
    output := ringReset
    raw := ringReset
    processed := ringReset
    downsample_counter := 0 }

-- ============================================================================
-- Energy computation and VAD
-- ============================================================================

/-- calculate_energy_db models static float calculate_energy_db(samples,
num_samples): -96 dB for an empty input, otherwise the RMS of the samples
(sum of int32_t squares accumulated in int64_t, both exact in Int), floored
at 1.0, converted to dB relative to full scale 32767.  Float arithmetic is
idealized as real arithmetic. -/
noncomputable def calculate_energy_db (samples : List Int) : ℝ :=
  if samples.length = 0 then -96
  else
    let sum_squares : Int := (samples.map fun s => s * s).sum
    let rms : ℝ := Real.sqrt ((sum_squares : ℝ) / (samples.length : ℝ))
    let rms2 : ℝ := if rms < 1 then 1 else rms
    20 * Real.logb 10 (rms2 / 32767)

/-- update_vad models static void update_vad(samples, num_samples) plus the
timestamp it samples from the tick counter (passed in as now).  The three
branches of the source (voice started / voice ongoing / otherwise) are
written field-wise: on a false-to-true transition the start time becomes now
and the duration resets to 0; while active the duration is the uint32_t
difference now - voice_start_time; otherwise both keep their old values. -/
noncomputable def update_vad (st : audio_pipeline_state_t) (samples : List Int)
    (now : Nat) : audio_pipeline_state_t :=
  let energy := calculate_energy_db samples
  let was_active := st.vad.is_active
  let active : Bool := decide (st.energy_threshold < energy)
  { st with
    vad := { is_active := active
             energy_db := energy
             duration_ms :=
               if active && !was_active then 0
               else if active then u32_sub now st.voice_start_time
               else st.vad.duration_ms }
    voice_start_time := if active && !was_active then now else st.voice_start_time }

-- ============================================================================
-- process_mic_data and the public API
-- ============================================================================

/-- downsample_dispatch is the INPUT_CHANNELS dispatch inside
process_mic_data: stereo mix-and-decimate when channels = 2, plain mono
decimation otherwise, both over the frames the source reads out of the byte
buffer (frames = len / (2 * samples_per_frame), which is exactly what
bytesToSamples and samplesToPairs produce). -/
def downsample_dispatch (channels counter : Nat) (data : List Nat) : Nat × List Int :=
  if channels = 2 then
    stereo_to_mono_downsample DOWNSAMPLE_RATIO counter (samplesToPairs (bytesToSamples data))
  else
    mono_downsample DOWNSAMPLE_RATIO counter (bytesToSamples data)

/-- process_mic_data models static void process_mic_data(data, len) in the
case where the mutex is acquired, with the compile-time INPUT_CHANNELS made
an explicit channels argument.  Steps, in source order: append the raw bytes
to the raw ring buffer if they fit, else increment raw_overruns; run the
downsampler (stereo mix-and-decimate when channels = 2, plain decimation
otherwise) over the frames of the same input, carrying
s_audio.downsample_counter; append the emitted samples to the processed ring
buffer if they fit, else increment overruns; finally, outside the lock, feed
the emitted samples to the VAD when there are any.  The source reads
frames = len / (2 * samples_per_frame) frames out of the byte buffer, which
is exactly what bytesToSamples (and samplesToPairs for stereo) produce. -/
noncomputable def process_mic_data (channels : Nat) (st : audio_pipeline_state_t)
    (data : List Nat) (now : Nat) : audio_pipeline_state_t :=
  if st.initialized = false ∨ data.length = 0 then st
  else
    let raw_space := ringFree RAW_BUFFER_SIZE st.raw
    let st1 :=
      if data.length ≤ raw_space then
        { st with raw := ringPush RAW_BUFFER_SIZE st.raw data }
      else { st with raw_overruns := st.raw_overruns + 1 }
    let ds := downsample_dispatch channels st.downsample_counter data
    let mono_bytes := samplesToBytes ds.2
    let st2 := { st1 with downsample_counter := ds.1 }
    let proc_space := ringFree PROCESSED_BUFFER_SIZE st.processed
    let st3 :=
      if mono_bytes.length ≤ proc_space then
        { st2 with processed := ringPush PROCESSED_BUFFER_SIZE st2.processed mono_bytes }
      else { st2 with overruns := st2.overruns + 1 }
    if 0 < ds.2.length then update_vad st3 ds.2 now else st3

/-- audio_pipeline_write models size_t audio_pipeline_write(data, len,
timeout_ms) in the case where the mutex is acquired: guard, then a truncating
write into the output ring buffer; returns the byte count together with the
new state. -/
def audio_pipeline_write (st : audio_pipeline_state_t) (data : List Nat) :
    Nat × audio_pipeline_state_t :=
  if st.initialized = false ∨ data.length = 0 then (0, st)
  else
    let r := ring_write AUDIO_BUFFER_SIZE st.output data
    (r.1, { st with output := r.2 })

/-- audio_pipeline_read models size_t audio_pipeline_read(data, len,
timeout_ms) in the case where the mutex is acquired: guard, then a truncating
read from the processed ring buffer; returns the bytes read together with the
new state. -/
def audio_pipeline_read (st : audio_pipeline_state_t) (len : Nat) :
    List Nat × audio_pipeline_state_t :=
  if st.initialized = false ∨ len = 0 then ([], st)
  else
    let r := ring_read PROCESSED_BUFFER_SIZE st.processed len
    (r.1, { st with processed := r.2 })

/-- audio_pipeline_read_raw models size_t audio_pipeline_read_raw(data, len,
timeout_ms) in the case where the mutex is acquired: guard, then a truncating
read from the raw ring buffer. -/
def audio_pipeline_read_raw (st : audio_pipeline_state_t) (len : Nat) :
    List Nat × audio_pipeline_state_t :=
  if st.initialized = false ∨ len = 0 then ([], st)
  else
    let r := ring_read RAW_BUFFER_SIZE st.raw len
    (r.1, { st with raw := r.2 })

/-- audio_pipeline_stop models esp_err_t audio_pipeline_stop(): state becomes
Idle and only the output ring-buffer cursors are zeroed (the event-group bits
it also clears are FreeRTOS primitives outside the model). -/
def audio_pipeline_stop (st : audio_pipeline_state_t) : audio_pipeline_state_t :=
  { st with
    state := audio_state_t.idle
    output := { st.output with wpos := 0, rpos := 0 } }

/-- audio_pipeline_record_start models esp_err_t audio_pipeline_record_start():
it unconditionally sets the state to Recording (the event-group bit it sets
is outside the model). -/
def audio_pipeline_record_start (st : audio_pipeline_state_t) : audio_pipeline_state_t :=
  { st with state := audio_state_t.recording }

-- ============================================================================
-- Helper lemmas: arithmetic
-- ============================================================================

/-- mod_two_cases resolves x % cap when x is known to be below 2 * cap. -/
theorem mod_two_cases (x cap : Nat) (h : x < 2 * cap) :
    x % cap = if x < cap then x else x - cap := by
  split
  · exact Nat.mod_eq_of_lt (by assumption)
  · rw [Nat.mod_eq_sub_mod (by omega)]
    exact Nat.mod_eq_of_lt (by omega)

/-- tdiv_two_cases expresses C truncating division by 2 through Euclidean
division. -/
theorem tdiv_two_cases (x : Int) : Int.tdiv x 2 = if 0 ≤ x then x / 2 else -((-x) / 2) := by
  split
  · exact Int.tdiv_eq_ediv (by assumption) (by norm_num)
  · calc Int.tdiv x 2 = -(Int.tdiv (-x) 2) := by rw [Int.neg_tdiv, Int.neg_neg]
    _ = -((-x) / 2) := by rw [Int.tdiv_eq_ediv (by omega) (by norm_num)]

/-- add_mod_ne_self: adding a nonzero offset below the modulus moves a ring
address. -/
theorem add_mod_ne_self (p k cap : Nat) (h1 : 0 < k) (h2 : k < cap) :
    (p + k) % cap ≠ p % cap := by
  intro h
  have h3 : (p + k) ≡ (p + 0) [MOD cap] := by simpa using h
  have h4 : k ≡ 0 [MOD cap] := Nat.ModEq.add_left_cancel' p h3
  have h5 : k % cap = 0 % cap := h4
  have h6 : k % cap = k := Nat.mod_eq_of_lt h2
  rw [Nat.zero_mod] at h5
  omega

/-- if_lt_one_max rewrites the flooring branch of the source into a max. -/
theorem if_lt_one_max (a : ℝ) : (if a < 1 then 1 else a) = max a 1 := by
  rcases lt_trichotomy a 1 with h | h | h
  · simp [h, max_eq_right h.le]
  · simp [h]
  · simp [not_lt.mpr h.le, max_eq_left h.le]

-- ============================================================================
-- Helper lemmas: downsamplers
-- ============================================================================

/-- mono_downsample distributes over list append, threading the counter. -/
theorem mono_downsample_append (ratio : Nat) (c : Nat) (xs ys : List Int) :
    mono_downsample ratio c (xs ++ ys) =
      ((mono_downsample ratio (mono_downsample ratio c xs).1 ys).1,
       (mono_downsample ratio c xs).2
         ++ (mono_downsample ratio (mono_downsample ratio c xs).1 ys).2) := by
  induction xs generalizing c with
  | nil => simp [mono_downsample]
  | cons x xs ih =>
    simp only [List.cons_append, mono_downsample]
    split
    · simp [ih 0]
    · simp [ih (c + 1)]

/-- stereo_to_mono_downsample distributes over list append. -/
theorem stereo_downsample_append (ratio : Nat) (c : Nat) (xs ys : List (Int × Int)) :
    stereo_to_mono_downsample ratio c (xs ++ ys) =
      ((stereo_to_mono_downsample ratio (stereo_to_mono_downsample ratio c xs).1 ys).1,
       (stereo_to_mono_downsample ratio c xs).2
         ++ (stereo_to_mono_downsample ratio (stereo_to_mono_downsample ratio c xs).1 ys).2) := by
  induction xs generalizing c with
  | nil => simp [stereo_to_mono_downsample]
  | cons x xs ih =>
    obtain ⟨l, r⟩ := x
    simp only [List.cons_append, stereo_to_mono_downsample]
    split
    · simp [ih 0]
    · simp [ih (c + 1)]

/-- chunked_eq_flatten: a chunk processor with the two structural properties
of the downsamplers gives the same result on any chunking as on the
concatenated input. -/
theorem chunked_eq_flatten {α β : Type} (f : Nat → List α → Nat × List β)
    (hnil : ∀ c, f c [] = (c, []))
    (happ : ∀ c xs ys, f c (xs ++ ys)
      = ((f (f c xs).1 ys).1, (f c xs).2 ++ (f (f c xs).1 ys).2)) :
    ∀ (chunks : List (List α)) (c : Nat), chunked f c chunks = f c chunks.flatten := by
  have aux : ∀ (chunks : List (List α)) (c : Nat) (acc : List β),
      chunks.foldl (fun a chunk => ((f a.1 chunk).1, a.2 ++ (f a.1 chunk).2)) (c, acc)
        = ((f c chunks.flatten).1, acc ++ (f c chunks.flatten).2) := by
    intro chunks
    induction chunks with
    | nil => intro c acc; simp [hnil]
    | cons ch chs ih =>
      intro c acc
      simp only [List.foldl_cons, List.flatten_cons, ih, happ c ch chs.flatten,
        List.append_assoc]
  intro chunks c
  have h := aux chunks c []
  simpa [chunked] using h

/-- mono_downsample_length: the emitted count is floor((c + N) / ratio). -/
theorem mono_downsample_length (ratio : Nat) (hr : 1 ≤ ratio) :
    ∀ (xs : List Int) (c : Nat), c < ratio →
      (mono_downsample ratio c xs).2.length = (c + xs.length) / ratio := by
  intro xs
  induction xs with
  | nil =>
    intro c hc
    simp [mono_downsample, Nat.div_eq_of_lt hc]
  | cons x xs ih =>
    intro c hc
    simp only [mono_downsample]
    split
    · have hce : c + 1 = ratio := by omega
      have h1 := ih 0 (by omega)
      simp only [List.length_cons, h1]
      have h2 : c + (xs.length + 1) = xs.length + ratio := by omega
      rw [h2, Nat.add_div_right _ (by omega), Nat.zero_add]
    · have h1 := ih (c + 1) (by omega)
      simp only [List.length_cons, h1]
      have h2 : c + 1 + xs.length = c + (xs.length + 1) := by omega
      rw [h2]

/-- stereo_downsample_length: the emitted count is floor((c + N) / ratio). -/
theorem stereo_downsample_length (ratio : Nat) (hr : 1 ≤ ratio) :
    ∀ (xs : List (Int × Int)) (c : Nat), c < ratio →
      (stereo_to_mono_downsample ratio c xs).2.length = (c + xs.length) / ratio := by
  intro xs
  induction xs with
  | nil =>
    intro c hc
    simp [stereo_to_mono_downsample, Nat.div_eq_of_lt hc]
  | cons x xs ih =>
    obtain ⟨l, r⟩ := x
    intro c hc
    simp only [stereo_to_mono_downsample]
    split
    · have hce : c + 1 = ratio := by omega
      have h1 := ih 0 (by omega)
      simp only [List.length_cons, h1]
      have h2 : c + (xs.length + 1) = xs.length + ratio := by omega
      rw [h2, Nat.add_div_right _ (by omega), Nat.zero_add]
    · have h1 := ih (c + 1) (by omega)
      simp only [List.length_cons, h1]
      have h2 : c + 1 + xs.length = c + (xs.length + 1) := by omega
      rw [h2]

-- ============================================================================
-- C1
-- ============================================================================

/-- C1: the downsamplers (mono_downsample, and stereo_to_mono_downsample
after mixing) carry the phase counter in the pipeline state, so running them
over any partition of an input sequence into consecutive chunks produces
exactly the same output sample sequence as one call over the whole input,
and for every ratio at least 1 and starting phase c below ratio the number
of samples emitted for N frames is floor((c + N) / ratio). -/
theorem downsample_phase_carries (ratio c : Nat) (chunks : List (List Int))
    (schunks : List (List (Int × Int))) (xs : List Int) (ss : List (Int × Int))
    (hr : 1 ≤ ratio) (hc : c < ratio) :
    chunked (mono_downsample ratio) c chunks = mono_downsample ratio c chunks.flatten
    ∧ chunked (stereo_to_mono_downsample ratio) c schunks
        = stereo_to_mono_downsample ratio c schunks.flatten
    ∧ (mono_downsample ratio c xs).2.length = (c + xs.length) / ratio
    ∧ (stereo_to_mono_downsample ratio c ss).2.length = (c + ss.length) / ratio := by
  refine ⟨?_, ?_, ?_, ?_⟩
  · exact chunked_eq_flatten (mono_downsample ratio) (fun _ => rfl)
      (mono_downsample_append ratio) chunks c
  · exact chunked_eq_flatten (stereo_to_mono_downsample ratio) (fun _ => rfl)
      (stereo_downsample_append ratio) schunks c
  · exact mono_downsample_length ratio hr xs c hc
  · exact stereo_downsample_length ratio hr ss c hc

/-- C1 witness: the theorem applied at ratio 3, phase 2, concrete chunkings. -/
theorem downsample_phase_carries_witness :
    chunked (mono_downsample 3) 2 [[10], [11, 12], [13, 14, 15]]
        = mono_downsample 3 2 [[10], [11, 12], [13, 14, 15]].flatten
    ∧ (mono_downsample 3 2 [10, 11, 12]).2.length = (2 + 3) / 3 :=
  ⟨(downsample_phase_carries 3 2 [[10], [11, 12], [13, 14, 15]] [] [10, 11, 12] []
      (by decide) (by decide)).1,
   (downsample_phase_carries 3 2 [[10], [11, 12], [13, 14, 15]] [] [10, 11, 12] []
      (by decide) (by decide)).2.2.1⟩

-- ============================================================================
-- C10
-- ============================================================================

/-- C10: for every starting phase c below ratio, the downsamplers emit at
most floor(N / ratio) + 1 samples for N input frames, so the stack output
array of frames / DOWNSAMPLE_RATIO + 1 elements that process_mic_data
allocates is never written out of bounds. -/
theorem downsample_output_bound (ratio c : Nat) (xs : List Int) (ss : List (Int × Int))
    (hr : 1 ≤ ratio) (hc : c < ratio) :
    (mono_downsample ratio c xs).2.length ≤ xs.length / ratio + 1
    ∧ (stereo_to_mono_downsample ratio c ss).2.length ≤ ss.length / ratio + 1 := by
  constructor
  · rw [mono_downsample_length ratio hr xs c hc]
    calc (c + xs.length) / ratio ≤ (xs.length + ratio) / ratio :=
          Nat.div_le_div_right (by omega)
    _ = xs.length / ratio + 1 := Nat.add_div_right _ (by omega)
  · rw [stereo_downsample_length ratio hr ss c hc]
    calc (c + ss.length) / ratio ≤ (ss.length + ratio) / ratio :=
          Nat.div_le_div_right (by omega)
    _ = ss.length / ratio + 1 := Nat.add_div_right _ (by omega)

/-- C10 witness: the theorem applied at ratio 3, phase 2, four mono frames
and two stereo frames. -/
theorem downsample_output_bound_witness :
    (mono_downsample 3 2 [1, 2, 3, 4]).2.length ≤ 4 / 3 + 1
    ∧ (stereo_to_mono_downsample 3 2 [(1, 2), (3, 4)]).2.length ≤ 2 / 3 + 1 :=
  downsample_output_bound 3 2 [1, 2, 3, 4] [(1, 2), (3, 4)] (by decide) (by decide)

-- ============================================================================
-- Helper lemmas: ring buffers
-- ============================================================================

/-- ringFree_eq: for in-range cursors the free space is exactly
capacity - 1 - available, the one-slot-empty discipline. -/
theorem ringFree_eq (cap : Nat) (b : RingBuf) (hw : b.wpos < cap) (hr : b.rpos < cap) :
    ringFree cap b = cap - 1 - ringAvailable cap b := by
  unfold ringFree ringAvailable
  rw [mod_two_cases _ _ (by omega), mod_two_cases _ _ (by omega)]
  split <;> split <;> omega

/-- ringAvailable_lt: the available count is always below the capacity. -/
theorem ringAvailable_lt (cap : Nat) (hcap : 0 < cap) (b : RingBuf) :
    ringAvailable cap b < cap := by
  unfold ringAvailable
  exact Nat.mod_lt _ hcap

/-- ring_write_fst: the byte count a truncating write returns is the request
clamped to the free space. -/
theorem ring_write_fst (cap : Nat) (b : RingBuf) (data : List Nat) :
    (ring_write cap b data).1
      = if data.length < ringFree cap b then data.length else ringFree cap b := by
  simp only [ring_write]
  split <;> split <;> rfl

/-- ring_write_cursors: a truncating write keeps the write cursor in range
and leaves the read cursor unchanged. -/
theorem ring_write_cursors (cap : Nat) (hcap : 0 < cap) (b : RingBuf) (data : List Nat)
    (hw : b.wpos < cap) :
    (ring_write cap b data).2.wpos < cap ∧ (ring_write cap b data).2.rpos = b.rpos := by
  simp only [ring_write]
  split <;> split
  all_goals first
    | exact ⟨Nat.mod_lt _ hcap, rfl⟩
    | exact ⟨hw, rfl⟩

/-- ring_read_cursors: a truncating read keeps the read cursor in range and
leaves the write cursor unchanged. -/
theorem ring_read_cursors (cap : Nat) (hcap : 0 < cap) (b : RingBuf) (len : Nat)
    (hr : b.rpos < cap) :
    (ring_read cap b len).2.rpos < cap ∧ (ring_read cap b len).2.wpos = b.wpos := by
  simp only [ring_read]
  split <;> split
  all_goals first
    | exact ⟨Nat.mod_lt _ hcap, rfl⟩
    | exact ⟨hr, rfl⟩

/-- ring_run_bounds: from the reset state, any operation sequence keeps both
cursors below the capacity. -/
theorem ring_run_bounds (cap : Nat) (hcap : 0 < cap) (ops : List ring_op) :
    (ring_run cap ops).wpos < cap ∧ (ring_run cap ops).rpos < cap := by
  suffices h : ∀ (l : List ring_op) (b : RingBuf), b.wpos < cap → b.rpos < cap →
      (l.foldl (ring_step cap) b).wpos < cap ∧ (l.foldl (ring_step cap) b).rpos < cap by
    exact h ops ringReset hcap hcap
  intro l
  induction l with
  | nil => exact fun b hw hr => ⟨hw, hr⟩
  | cons op l ih =>
    intro b hw hr
    refine ih (ring_step cap b op) ?_ ?_
    · cases op with
      | write data => exact (ring_write_cursors cap hcap b data hw).1
      | read len => simpa [ring_step, (ring_read_cursors cap hcap b len hr).2] using hw
    · cases op with
      | write data => simpa [ring_step, (ring_write_cursors cap hcap b data hw).2] using hr
      | read len => exact (ring_read_cursors cap hcap b len hr).1

-- ============================================================================
-- C2
-- ============================================================================

/-- C2: on a ring buffer of capacity cap run from the reset state through any
sequence of truncating writes and reads, the available byte count
(write_pos - read_pos + cap) mod cap never exceeds cap - 1, and a write call
returns a byte count that is at most the requested length and at most the
free space cap - 1 - available at the moment of the call; the same two write
bounds hold for audio_pipeline_write on the output buffer at any state with
in-range cursors. -/
theorem ring_buffer_invariant (cap : Nat) (ops : List ring_op) (data : List Nat)
    (st : audio_pipeline_state_t) (hcap : 0 < cap)
    (hw : st.output.wpos < AUDIO_BUFFER_SIZE) (hr : st.output.rpos < AUDIO_BUFFER_SIZE) :
    ringAvailable cap (ring_run cap ops) ≤ cap - 1
    ∧ (ring_write cap (ring_run cap ops) data).1 ≤ data.length
    ∧ (ring_write cap (ring_run cap ops) data).1
        ≤ cap - 1 - ringAvailable cap (ring_run cap ops)
    ∧ (audio_pipeline_write st data).1 ≤ data.length
    ∧ (audio_pipeline_write st data).1
        ≤ AUDIO_BUFFER_SIZE - 1 - ringAvailable AUDIO_BUFFER_SIZE st.output := by
  obtain ⟨hbw, hbr⟩ := ring_run_bounds cap hcap ops
  have havail := ringAvailable_lt cap hcap (ring_run cap ops)
  have hfree := ringFree_eq cap (ring_run cap ops) hbw hbr
  have hwf := ring_write_fst cap (ring_run cap ops) data
  have hofree := ringFree_eq AUDIO_BUFFER_SIZE st.output hw hr
  have hwrite : (audio_pipeline_write st data).1 = 0
      ∨ (audio_pipeline_write st data).1 = (ring_write AUDIO_BUFFER_SIZE st.output data).1 := by
    unfold audio_pipeline_write
    split
    · exact Or.inl rfl
    · exact Or.inr rfl
  have howf := ring_write_fst AUDIO_BUFFER_SIZE st.output data
  refine ⟨by omega, ?_, ?_, ?_, ?_⟩
  · rw [hwf]; split <;> omega
  · rw [hwf]; split <;> omega
  · rcases hwrite with h | h
    · omega
    · rw [h, howf]; split <;> omega
  · rcases hwrite with h | h
    · omega
    · rw [h, howf]; split <;> omega

/-- C2 witness: the theorem applied at capacity 8, a concrete operation
sequence, and the freshly initialized pipeline state. -/
theorem ring_buffer_invariant_witness :
    ringAvailable 8 (ring_run 8 [ring_op.write [1, 2, 3], ring_op.read 2]) ≤ 8 - 1
    ∧ (audio_pipeline_write audio_pipeline_init_state [5, 6]).1 ≤ 2 :=
  ⟨(ring_buffer_invariant 8 [ring_op.write [1, 2, 3], ring_op.read 2] [5, 6]
      audio_pipeline_init_state (by decide) (by decide) (by decide)).1,
   (ring_buffer_invariant 8 [ring_op.write [1, 2, 3], ring_op.read 2] [5, 6]
      audio_pipeline_init_state (by decide) (by decide) (by decide)).2.2.2.1⟩

-- ============================================================================
-- Helper lemmas: byte-level ring writes and reads
-- ============================================================================

/-- writeAt_out: a write leaves every address outside its window unchanged. -/
theorem writeAt_out (cap a : Nat) :
    ∀ (ds : List Nat) (pos : Nat) (buf : Nat → Nat),
      (∀ j, j < ds.length → (pos + j) % cap ≠ a) → writeAt cap buf pos ds a = buf a := by
  intro ds
  induction ds with
  | nil => intro pos buf _; rfl
  | cons d ds ih =>
    intro pos buf h
    simp only [writeAt]
    rw [ih ((pos + 1) % cap) _ ?_]
    · have h0 : pos % cap ≠ a := by simpa using h 0 (by simp)
      simp [Ne.symm h0]
    · intro j hj
      have h1 := h (j + 1) (by simpa using Nat.succ_lt_succ hj)
      rw [Nat.mod_add_mod]
      have h2 : pos + 1 + j = pos + (j + 1) := by omega
      rw [h2]
      exact h1

/-- writeAt_get: if a byte list that fits the capacity is written starting at
pos, address (pos + i) mod cap holds byte i afterwards. -/
theorem writeAt_get (cap : Nat) :
    ∀ (ds : List Nat) (pos : Nat) (buf : Nat → Nat) (i : Nat) (hi : i < ds.length),
      ds.length ≤ cap → writeAt cap buf pos ds ((pos + i) % cap) = ds.get ⟨i, hi⟩ := by
  intro ds
  induction ds with
  | nil => intro pos buf i hi; exact absurd hi (by simp)
  | cons d ds ih =>
    intro pos buf i hi hlen
    cases i with
    | zero =>
      simp only [writeAt, List.get]
      rw [writeAt_out cap _ ds ((pos + 1) % cap) _ ?_]
      · simp
      · intro j hj
        rw [Nat.mod_add_mod]
        have h2 : pos + 1 + j = pos + (1 + j) := by omega
        rw [h2]
        have hlt : 1 + j < cap := by
          simp only [List.length_cons] at hlen
          omega
        simpa using add_mod_ne_self pos (1 + j) cap (by omega) hlt
    | succ i =>
      simp only [writeAt, List.get]
      have hi2 : i < ds.length := by simpa using Nat.lt_of_succ_lt_succ hi
      have h := ih ((pos + 1) % cap) (fun a => if a = pos % cap then d else buf a) i hi2
        (by simp only [List.length_cons] at hlen; omega)
      have haddr : ((pos + 1) % cap + i) % cap = (pos + (i + 1)) % cap := by
        rw [Nat.mod_add_mod]
        have : pos + 1 + i = pos + (i + 1) := by omega
        rw [this]
      rw [haddr] at h
      exact h

/-- ringExtract_length: an extract of n bytes has length n. -/
theorem ringExtract_length (cap : Nat) (buf : Nat → Nat) (pos n : Nat) :
    (ringExtract cap buf pos n).length = n := by
  simp [ringExtract]

/-- ringExtract_writeAt: reading back a just-written byte list that fits the
capacity returns it exactly, wrap-around included. -/
theorem ringExtract_writeAt (cap : Nat) (buf : Nat → Nat) (pos : Nat)
    (S : List Nat) (hlen : S.length ≤ cap) :
    ringExtract cap (writeAt cap buf pos S) pos S.length = S := by
  apply List.ext_get
  · exact ringExtract_length cap _ pos S.length
  · intro n h1 h2
    have hn : n < S.length := by simpa [ringExtract] using h1
    simp only [ringExtract, List.get_map, List.get_range]
    exact writeAt_get cap S pos buf n hn hlen

-- ============================================================================
-- Helper lemmas: update_vad and process_mic_data frame conditions
-- ============================================================================

/-- update_vad_frame: update_vad touches only the VAD fields and the voice
start time. -/
theorem update_vad_frame (st : audio_pipeline_state_t) (samples : List Int) (now : Nat) :
    (update_vad st samples now).raw = st.raw
    ∧ (update_vad st samples now).processed = st.processed
    ∧ (update_vad st samples now).output = st.output
    ∧ (update_vad st samples now).raw_overruns = st.raw_overruns
    ∧ (update_vad st samples now).overruns = st.overruns
    ∧ (update_vad st samples now).underruns = st.underruns
    ∧ (update_vad st samples now).downsample_counter = st.downsample_counter
    ∧ (update_vad st samples now).initialized = st.initialized
    ∧ (update_vad st samples now).state = st.state := by
  exact ⟨rfl, rfl, rfl, rfl, rfl, rfl, rfl, rfl, rfl⟩

/-- process_raw_effect: the effect of process_mic_data on the raw ring buffer
and its overrun counter, for a nonempty chunk on an initialized pipeline. -/
theorem process_raw_effect (channels : Nat) (st : audio_pipeline_state_t)
    (data : List Nat) (now : Nat)
    (hinit : st.initialized = true) (hlen : data.length ≠ 0) :
    (process_mic_data channels st data now).raw
      = (if data.length ≤ ringFree RAW_BUFFER_SIZE st.raw
         then ringPush RAW_BUFFER_SIZE st.raw data else st.raw)
    ∧ (process_mic_data channels st data now).raw_overruns
      = (if data.length ≤ ringFree RAW_BUFFER_SIZE st.raw
         then st.raw_overruns else st.raw_overruns + 1) := by
  simp only [process_mic_data, hinit]
  rw [if_neg (by simp [hlen])]
  split
  · split
    · split <;> exact ⟨rfl, rfl⟩
    · split <;> exact ⟨rfl, rfl⟩
  · split
    · split <;> exact ⟨rfl, rfl⟩
    · split <;> exact ⟨rfl, rfl⟩

/-- process_processed_effect: the effect of process_mic_data on the processed
ring buffer, its overrun counter and the downsample phase counter; note that
none of it depends on whether the raw append succeeded. -/
theorem process_processed_effect (channels : Nat) (st : audio_pipeline_state_t)
    (data : List Nat) (now : Nat)
    (hinit : st.initialized = true) (hlen : data.length ≠ 0) :
    (process_mic_data channels st data now).processed
      = (if (samplesToBytes (downsample_dispatch channels st.downsample_counter data).2).length
            ≤ ringFree PROCESSED_BUFFER_SIZE st.processed
         then ringPush PROCESSED_BUFFER_SIZE st.processed
            (samplesToBytes (downsample_dispatch channels st.downsample_counter data).2)
         else st.processed)
    ∧ (process_mic_data channels st data now).overruns
      = (if (samplesToBytes (downsample_dispatch channels st.downsample_counter data).2).length
            ≤ ringFree PROCESSED_BUFFER_SIZE st.processed
         then st.overruns else st.overruns + 1)
    ∧ (process_mic_data channels st data now).downsample_counter
      = (downsample_dispatch channels st.downsample_counter data).1 := by
  simp only [process_mic_data, hinit]
  rw [if_neg (by simp [hlen])]
  split
  · split
    · split <;> exact ⟨rfl, rfl, rfl⟩
    · split <;> exact ⟨rfl, rfl, rfl⟩
  · split
    · split <;> exact ⟨rfl, rfl, rfl⟩
    · split <;> exact ⟨rfl, rfl, rfl⟩

/-- process_initialized: process_mic_data never changes the initialized
flag. -/
theorem process_initialized (channels : Nat) (st : audio_pipeline_state_t)
    (data : List Nat) (now : Nat) :
    (process_mic_data channels st data now).initialized = st.initialized := by
  simp only [process_mic_data]
  split
  · rfl
  · split
    · split
      · split <;> rfl
      · split <;> rfl
    · split
      · split <;> rfl
      · split <;> rfl

-- ============================================================================
-- C3
-- ============================================================================

/-- C3 counterexample: the claim quantifies over every reachable cursor state
of the raw ring buffer with enough free space, but when two bytes are already
pending (written by an earlier process_mic_data call and not yet drained),
appending S = [9, 9, 10, 10] and reading back len(S) bytes returns the two
older bytes first, in FIFO order, and not S. -/
theorem raw_roundtrip_counterexample :
    (audio_pipeline_read_raw
        (process_mic_data 1 (process_mic_data 1 audio_pipeline_init_state [1, 2] 0)
          [9, 9, 10, 10] 0) 4).1 ≠ [9, 9, 10, 10] := by decide

/-- C3 (amended): for every byte sequence S with len(S) at most capacity - 1
and every cursor position of the raw ring buffer at which the buffer is empty
(read cursor equal to write cursor, at any in-range position, so S may
straddle the wrap-around boundary), appending S via process_mic_data (which
stores the raw input bytes unmodified) and then reading len(S) bytes via
audio_pipeline_read_raw returns exactly S in FIFO order. -/
theorem raw_roundtrip_empty (channels : Nat) (st : audio_pipeline_state_t)
    (S : List Nat) (now : Nat)
    (hinit : st.initialized = true)
    (hw : st.raw.wpos < RAW_BUFFER_SIZE)
    (hempty : st.raw.rpos = st.raw.wpos)
    (hlen : S.length ≤ RAW_BUFFER_SIZE - 1) :
    (audio_pipeline_read_raw (process_mic_data channels st S now) S.length).1 = S := by
  have hC : RAW_BUFFER_SIZE = 65536 := by norm_num [RAW_BUFFER_SIZE]
  by_cases hS : S.length = 0
  · have hnil : S = [] := List.length_eq_zero.mp hS
    subst hnil
    simp [process_mic_data, audio_pipeline_read_raw]
  · have hfree : ringFree RAW_BUFFER_SIZE st.raw = RAW_BUFFER_SIZE - 1 := by
      unfold ringFree
      rw [hempty]
      have h1 : st.raw.wpos + RAW_BUFFER_SIZE - st.raw.wpos - 1 = RAW_BUFFER_SIZE - 1 := by
        omega
      rw [h1]
      exact Nat.mod_eq_of_lt (by omega)
    have hraw : (process_mic_data channels st S now).raw
        = ringPush RAW_BUFFER_SIZE st.raw S := by
      rw [(process_raw_effect channels st S now hinit hS).1, if_pos (by omega)]
    have hinit2 : (process_mic_data channels st S now).initialized = true := by
      rw [process_initialized, hinit]
    simp only [audio_pipeline_read_raw, hinit2]
    rw [if_neg (by simp [hS])]
    simp only [hraw, ring_read]
    have havail : ringAvailable RAW_BUFFER_SIZE (ringPush RAW_BUFFER_SIZE st.raw S)
        = S.length := by
      simp only [ringAvailable, ringPush]
      rw [hempty]
      rw [hC] at hw hlen ⊢
      omega
    rw [havail, if_neg (lt_irrefl S.length), if_pos (by omega)]
    simp only [ringPush]
    rw [hempty]
    exact ringExtract_writeAt RAW_BUFFER_SIZE st.raw.buf st.raw.wpos S (by omega)

/-- C3 witness: the amended theorem applied to three bytes appended to the
freshly initialized pipeline. -/
theorem raw_roundtrip_empty_witness :
    (audio_pipeline_read_raw (process_mic_data 1 audio_pipeline_init_state [7, 8, 9] 0)
        ([7, 8, 9] : List Nat).length).1 = [7, 8, 9] :=
  raw_roundtrip_empty 1 audio_pipeline_init_state [7, 8, 9] 0
    (by decide) (by decide) (by decide) (by decide)

-- ============================================================================
-- C7
-- ============================================================================

/-- C7: whenever a process_mic_data call on an initialized pipeline finds
insufficient free space for the raw or for the processed append, the matching
overrun counter (raw_overruns, overruns) grows by exactly one per failed
append call regardless of the number of dropped bytes, the ring buffer of the
failed path is left completely unchanged, and the processed path (downsample,
phase-counter update and processed append) is the same whether or not the raw
append failed. -/
theorem process_overrun_semantics (channels : Nat) (st : audio_pipeline_state_t)
    (data : List Nat) (now : Nat)
    (hinit : st.initialized = true) (hlen : data.length ≠ 0) :
    (process_mic_data channels st data now).raw_overruns
      = (if data.length ≤ ringFree RAW_BUFFER_SIZE st.raw
         then st.raw_overruns else st.raw_overruns + 1)
    ∧ (process_mic_data channels st data now).raw
      = (if data.length ≤ ringFree RAW_BUFFER_SIZE st.raw
         then ringPush RAW_BUFFER_SIZE st.raw data else st.raw)
    ∧ (process_mic_data channels st data now).overruns
      = (if (samplesToBytes (downsample_dispatch channels st.downsample_counter data).2).length
            ≤ ringFree PROCESSED_BUFFER_SIZE st.processed
         then st.overruns else st.overruns + 1)
    ∧ (process_mic_data channels st data now).processed
      = (if (samplesToBytes (downsample_dispatch channels st.downsample_counter data).2).length
            ≤ ringFree PROCESSED_BUFFER_SIZE st.processed
         then ringPush PROCESSED_BUFFER_SIZE st.processed
            (samplesToBytes (downsample_dispatch channels st.downsample_counter data).2)
         else st.processed)
    ∧ (process_mic_data channels st data now).downsample_counter
      = (downsample_dispatch channels st.downsample_counter data).1 := by
  obtain ⟨h1, h2⟩ := process_raw_effect channels st data now hinit hlen
  obtain ⟨h3, h4, h5⟩ := process_processed_effect channels st data now hinit hlen
  exact ⟨h2, h1, h4, h3, h5⟩

/-- C7 witness: the theorem applied to a two-byte mono chunk on the freshly
initialized pipeline. -/
theorem process_overrun_semantics_witness :
    (process_mic_data 1 audio_pipeline_init_state [1, 2] 0).raw_overruns
      = (if ([1, 2] : List Nat).length ≤ ringFree RAW_BUFFER_SIZE audio_pipeline_init_state.raw
         then audio_pipeline_init_state.raw_overruns
         else audio_pipeline_init_state.raw_overruns + 1)
    ∧ (process_mic_data 1 audio_pipeline_init_state [1, 2] 0).downsample_counter
      = (downsample_dispatch 1 audio_pipeline_init_state.downsample_counter [1, 2]).1 :=
  ⟨(process_overrun_semantics 1 audio_pipeline_init_state [1, 2] 0 (by decide) (by decide)).1,
   (process_overrun_semantics 1 audio_pipeline_init_state [1, 2] 0
      (by decide) (by decide)).2.2.2.2⟩

-- ============================================================================
-- C8
-- ============================================================================

/-- C8: audio_pipeline_stop sets the state to Idle and zeroes only the output
ring-buffer write and read cursors; the output arena contents, the raw and
processed input buffers, the downsample phase counter, the VAD state, the
volume, and the statistics counters are all left unchanged. -/
theorem stop_clears_only_output (st : audio_pipeline_state_t) :
    (audio_pipeline_stop st).state = audio_state_t.idle
    ∧ (audio_pipeline_stop st).output.wpos = 0
    ∧ (audio_pipeline_stop st).output.rpos = 0
    ∧ (audio_pipeline_stop st).output.buf = st.output.buf
    ∧ (audio_pipeline_stop st).raw = st.raw
    ∧ (audio_pipeline_stop st).processed = st.processed
    ∧ (audio_pipeline_stop st).downsample_counter = st.downsample_counter
    ∧ (audio_pipeline_stop st).vad = st.vad
    ∧ (audio_pipeline_stop st).energy_threshold = st.energy_threshold
    ∧ (audio_pipeline_stop st).voice_start_time = st.voice_start_time
    ∧ (audio_pipeline_stop st).volume = st.volume
    ∧ (audio_pipeline_stop st).muted = st.muted
    ∧ (audio_pipeline_stop st).underruns = st.underruns
    ∧ (audio_pipeline_stop st).overruns = st.overruns
    ∧ (audio_pipeline_stop st).raw_overruns = st.raw_overruns
    ∧ (audio_pipeline_stop st).initialized = st.initialized :=
  ⟨rfl, rfl, rfl, rfl, rfl, rfl, rfl, rfl, rfl, rfl, rfl, rfl, rfl, rfl, rfl, rfl⟩

-- ============================================================================
-- C9
-- ============================================================================

/-- C9 counterexample: calling audio_pipeline_record_start while the pipeline
is Playing does not produce the Duplex state; the source unconditionally
assigns AUDIO_STATE_RECORDING. -/
theorem record_start_playing_not_duplex :
    (audio_pipeline_record_start
        { audio_pipeline_init_state with state := audio_state_t.playing }).state
      ≠ audio_state_t.duplex := by decide

/-- C9 (amended): audio_pipeline_record_start sets the state to Recording
from every state, in particular from Idle and also from Playing; the Duplex
state is never produced by record_start (the open question of the
specification, section 9). -/
theorem record_start_sets_recording (st : audio_pipeline_state_t) :
    (audio_pipeline_record_start st).state = audio_state_t.recording := rfl

-- ============================================================================
-- C6
-- ============================================================================

/-- C6: calculate_energy_db returns 20 * log10(rms / 32767) where rms is
sqrt(sum of squared samples / n) floored at 1.0 before the logarithm, and for
an empty input it returns the sentinel floor value -96 dB (float arithmetic
idealized over the reals). -/
theorem calculate_energy_db_spec (samples : List Int) :
    calculate_energy_db samples =
      if samples = [] then (-96 : ℝ)
      else 20 * Real.logb 10
        (max (Real.sqrt ((((samples.map fun s => s * s).sum : Int) : ℝ)
            / (samples.length : ℝ))) 1 / 32767) := by
  cases samples with
  | nil => simp [calculate_energy_db]
  | cons a l =>
    have hne : (a :: l).length ≠ 0 := by simp
    have hne2 : (a :: l) ≠ ([] : List Int) := by simp
    simp only [calculate_energy_db]
    rw [if_neg hne, if_neg hne2, if_lt_one_max]

-- ============================================================================
-- C5
-- ============================================================================

/-- C5: for every stereo frame (l, r) of int16 values, including the boundary
case l = 32767, r = -32768, the mixed mono value computed before decimation
is the truncating integer average (l + r) / 2 on the wide Int intermediate
(the int32_t sum stays inside the 32-bit range, so it never overflows), the
average lies in the int16 range, the cast back to 16-bit is the identity on
it, and the downsamplers at emission phase therefore emit exactly that
average. -/
theorem stereo_mix_semantics (l r : Int)
    (h1 : -32768 ≤ l) (h2 : l ≤ 32767) (h3 : -32768 ≤ r) (h4 : r ≤ 32767) :
    (-2147483648 ≤ l + r ∧ l + r ≤ 2147483647)
    ∧ (-32768 ≤ Int.tdiv (l + r) 2 ∧ Int.tdiv (l + r) 2 ≤ 32767)
    ∧ toInt16 (Int.tdiv (l + r) 2) = Int.tdiv (l + r) 2
    ∧ stereo_to_mono_downsample DOWNSAMPLE_RATIO 2 [(l, r)]
        = (0, [Int.tdiv (l + r) 2])
    ∧ usb_stereo_to_mono_16k USB_DOWNSAMPLE_RATIO 2 [(l, r)]
        = (0, [Int.tdiv (l + r) 2]) := by
  have hdiv := tdiv_two_cases (l + r)
  have hrange : -32768 ≤ Int.tdiv (l + r) 2 ∧ Int.tdiv (l + r) 2 ≤ 32767 := by
    rw [hdiv]; split <;> omega
  have hto : toInt16 (Int.tdiv (l + r) 2) = Int.tdiv (l + r) 2 := by
    unfold toInt16
    omega
  refine ⟨⟨by omega, by omega⟩, hrange, hto, ?_, ?_⟩
  · norm_num [ DOWNSAMPLE_RATIO, stereo_to_mono_downsample, hto]
  · norm_num [ USB_DOWNSAMPLE_RATIO, usb_stereo_to_mono_16k, hto]

/-- C5 witness: the theorem applied at the boundary case l = 32767,
r = -32768, where the truncating average is 0. -/
theorem stereo_mix_semantics_witness :
    toInt16 (Int.tdiv ((32767 : Int) + -32768) 2) = Int.tdiv ((32767 : Int) + -32768) 2
    ∧ stereo_to_mono_downsample DOWNSAMPLE_RATIO 2 [((32767 : Int), (-32768 : Int))]
        = (0, [Int.tdiv ((32767 : Int) + -32768) 2]) :=
  ⟨(stereo_mix_semantics 32767 (-32768) (by decide) (by decide) (by decide) (by decide)).2.2.1,
   (stereo_mix_semantics 32767 (-32768)
      (by decide) (by decide) (by decide) (by decide)).2.2.2.1⟩

-- ============================================================================
-- C4
-- ============================================================================

/-- C4: update_vad sets is_active to true exactly when the computed energy is
strictly greater than the threshold (energy equal to the threshold gives
false); it also stores the computed energy; on a false-to-true transition it
records now as the activity start and resets duration_ms to 0; while
remaining active it sets duration_ms to now - activity_start; and on a
true-to-false transition or while remaining inactive it leaves both the start
time and duration_ms at their last values. -/
theorem update_vad_semantics (st : audio_pipeline_state_t) (samples : List Int) (now : Nat)
    (h1 : st.voice_start_time ≤ now) (h2 : now < 4294967296) :
    ((update_vad st samples now).vad.is_active = true
        ↔ st.energy_threshold < calculate_energy_db samples)
    ∧ (update_vad st samples now).vad.energy_db = calculate_energy_db samples
    ∧ (update_vad st samples now).voice_start_time
        = (if (update_vad st samples now).vad.is_active && !st.vad.is_active
           then now else st.voice_start_time)
    ∧ (update_vad st samples now).vad.duration_ms
        = (if (update_vad st samples now).vad.is_active && !st.vad.is_active then 0
           else if (update_vad st samples now).vad.is_active then now - st.voice_start_time
           else st.vad.duration_ms) := by
  have hu : u32_sub now st.voice_start_time = now - st.voice_start_time := by
    unfold u32_sub
    omega
  by_cases hp : st.energy_threshold < calculate_energy_db samples
  · have hd : decide (st.energy_threshold < calculate_energy_db samples) = true :=
      decide_eq_true hp
    cases hwas : st.vad.is_active <;>
      simp [update_vad, hd, hwas, hp, hu]
  · have hd : decide (st.energy_threshold < calculate_energy_db samples) = false := by
      simpa using hp
    cases hwas : st.vad.is_active <;>
      simp [update_vad, hd, hwas, hp]

/-- C4 witness: the theorem applied to the freshly initialized pipeline, the
single zero sample and timestamp 5. -/
theorem update_vad_semantics_witness :
    ((update_vad audio_pipeline_init_state [0] 5).vad.is_active = true
        ↔ audio_pipeline_init_state.energy_threshold < calculate_energy_db [0])
    ∧ (update_vad audio_pipeline_init_state [0] 5).vad.energy_db
        = calculate_energy_db [0] :=
  ⟨(update_vad_semantics audio_pipeline_init_state [0] 5 (by decide) (by decide)).1,
   (update_vad_semantics audio_pipeline_init_state [0] 5 (by decide) (by decide)).2.1⟩
